import Mathlib

/-!
# Verification of the chronos cron-job manager

A shallow embedding of the core of the `chronos` repository (Go): the
`cronmgr` package (job registry, scheduler registration, dispatch,
persistence) and the `backup` package (checksum-gated upload), together
with theorems settling the specification claims about them.

Modelling conventions:
* Go `time.Time` values are modelled as `Int` epoch seconds (the
  persistence layer stores `Unix()` seconds).
* Go `map[string]any` configs are modelled as association lists of a
  small value type `JVal`; an unchecked Go type assertion `v.(string)`
  that would panic is modelled by an explicit `panicked` outcome.
* The robfig cron scheduler is modelled abstractly: a `CronEnv`
  supplies the parse judgement and the next-fire-time function; the
  scheduler state is the list of live entries plus the next entry id.
* Go methods that mutate the receiver and return an `error` are
  modelled as functions returning the new state paired with
  `Option CMError` (so state changes that survive an error return, as
  in `UpdateJob`, are visible).
-/

namespace Chronos

/-! ## Configuration values (Go `map[string]any`) -/

/-- A JSON-like config value, as stored in `Job.Config`. -/
inductive JVal where
  | str (s : String)
  | num (n : Int)
  | boolean (b : Bool)
deriving DecidableEq, Repr

/-- Go `map[string]any`, modelled as an association list. -/
abbrev Config := List (String × JVal)

/-- Go `config[k]` presence test (`_, ok := config[k]`). -/
def configHas (cfg : Config) (k : String) : Bool :=
  (cfg.lookup k).isSome

/-- Go type assertion `config[k].(string)`: yields the string, or
`none` when the key is absent or the value is not a string (in Go this
panics). -/
def assertString (cfg : Config) (k : String) : Option String :=
  match cfg.lookup k with
  | some (JVal.str s) => some s
  | _ => none

/-! ## Job executors (`JobExecutor` implementations in part_003) -/

/-- Outcome of `Execute(config)`: normal success, an `error` return, or
a runtime panic from a failed type assertion. -/
inductive ExecOutcome where
  | ok
  | failed (msg : String)
  | panicked
deriving DecidableEq, Repr

/-- The `JobExecutor` interface: `Validate` and `Execute`. -/
structure JobExecutor where
  validate : Config → Except String Unit
  execute : Config → ExecOutcome

/-- `EmailJobExecutor.Validate`: requires keys `to` and `subject`. -/
def emailValidate (config : Config) : Except String Unit :=
  if !(configHas config "to") then Except.error "to field is required"
  else if !(configHas config "subject") then Except.error "subject field is required"
  else Except.ok ()

/-- `EmailJobExecutor.Execute`: asserts `to`, `subject`, `body` are
strings, then succeeds. -/
def emailExecute (config : Config) : ExecOutcome :=
  match assertString config "to", assertString config "subject",
        assertString config "body" with
  | some _, some _, some _ => ExecOutcome.ok
  | _, _, _ => ExecOutcome.panicked

/-- `SyncJobExecutor.Validate`: requires keys `source` and `destination`. -/
def syncValidate (config : Config) : Except String Unit :=
  if !(configHas config "source") then Except.error "source field is required"
  else if !(configHas config "destination") then Except.error "destination field is required"
  else Except.ok ()

/-- `SyncJobExecutor.Execute`. -/
def syncExecute (config : Config) : ExecOutcome :=
  match assertString config "source", assertString config "destination" with
  | some _, some _ => ExecOutcome.ok
  | _, _ => ExecOutcome.panicked

/-- `BackupJobExecutor.Validate`: requires keys `path` and `destination`. -/
def backupValidate (config : Config) : Except String Unit :=
  if !(configHas config "path") then Except.error "path field is required"
  else if !(configHas config "destination") then Except.error "destination field is required"
  else Except.ok ()

/-- `BackupJobExecutor.Execute`. -/
def backupExecute (config : Config) : ExecOutcome :=
  match assertString config "path", assertString config "destination" with
  | some _, some _ => ExecOutcome.ok
  | _, _ => ExecOutcome.panicked

/-- `CustomJobExecutor.Validate`: requires key `command`. -/
def customValidate (config : Config) : Except String Unit :=
  if !(configHas config "command") then Except.error "command field is required"
  else Except.ok ()

/-- `CustomJobExecutor.Execute`. -/
def customExecute (config : Config) : ExecOutcome :=
  match assertString config "command" with
  | some _ => ExecOutcome.ok
  | _ => ExecOutcome.panicked

def emailJobExecutor : JobExecutor := ⟨emailValidate, emailExecute⟩

def syncJobExecutor : JobExecutor := ⟨syncValidate, syncExecute⟩

def backupJobExecutor : JobExecutor := ⟨backupValidate, backupExecute⟩

def customJobExecutor : JobExecutor := ⟨customValidate, customExecute⟩

/-- The executor table installed by `NewCronManager` (keyed by the
`JobType` string). -/
def defaultExecutors : String → Option JobExecutor
  | "email" => some emailJobExecutor
  | "sync" => some syncJobExecutor
  | "backup" => some backupJobExecutor
  | "custom" => some customJobExecutor
  | _ => none

/-! ## Jobs -/

/-- The `Job` struct. Times are epoch seconds; `cronEntryID` is the
`*rcron.EntryID` scheduler handle. -/
structure Job where
  id : String
  name : String
  type : String
  schedule : String
  scheduleDesc : String
  enabled : Bool
  config : Config
  lastRun : Option Int
  nextRun : Option Int
  cronEntryID : Option Nat
deriving DecidableEq, Repr

/-! ## The scheduler (robfig cron, modelled abstractly) -/

/-- A live scheduler entry: its id, the job id captured by the
registered callback closure, the schedule it was registered with, and
its next activation time. -/
structure CronEntry where
  id : Nat
  jobID : String
  schedule : String
  next : Int
deriving DecidableEq, Repr

/-- Scheduler state: live entries and the next entry id to hand out. -/
structure CronSched where
  entries : List CronEntry
  nextID : Nat
deriving DecidableEq, Repr

/-- Environment abstracting the cron library: whether an expression
parses, the next activation time of a parsed expression from a given
instant, and the human-readable description (`none` = descriptor
error). -/
structure CronEnv where
  parseOk : String → Bool
  nextTime : String → Int → Int
  describe : String → Option String

/-- `cron.AddFunc(schedule, fn)`: parses the expression first; on
success registers a fresh entry and returns its id. On a parse error
the scheduler state is untouched. -/
def cronAddFunc (env : CronEnv) (c : CronSched) (sched jobID : String) (now : Int) :
    Except String (CronSched × Nat) :=
  if env.parseOk sched then
    Except.ok
      ({ entries := c.entries ++ [⟨c.nextID, jobID, sched, env.nextTime sched now⟩],
         nextID := c.nextID + 1 }, c.nextID)
  else Except.error "failed to parse schedule"

/-- The entry `cronAddFunc` registers for `job` at instant `now`. -/
def freshEntry (env : CronEnv) (c : CronSched) (job : Job) (now : Int) : CronEntry :=
  ⟨c.nextID, job.id, job.schedule, env.nextTime job.schedule now⟩

/-- `cron.Entry(id).Next`: the entry with that id, or the zero `Entry`
(zero time) when the id is not live. -/
def cronEntryNext (c : CronSched) (eid : Nat) : Int :=
  match c.entries.find? (fun e => e.id = eid) with
  | some e => e.next
  | none => 0

/-- `cron.Remove(id)`. -/
def cronRemove (c : CronSched) (eid : Nat) : CronSched :=
  { c with entries := c.entries.filter (fun e => e.id ≠ eid) }

/-- How many live triggers call back into the job with this id. -/
def triggersFor (c : CronSched) (jobID : String) : Nat :=
  (c.entries.filter (fun e => e.jobID = jobID)).length

/-! ## The registry map (Go `map[string]*Job`) -/

/-- Map read `m[k]`. -/
def mapGet (m : List (String × Job)) (k : String) : Option Job :=
  match m with
  | [] => none
  | (k2, v) :: rest => if k = k2 then some v else mapGet rest k

/-- Map write `m[k] = v` (overwrites any previous binding). -/
def mapSet (m : List (String × Job)) (k : String) (v : Job) : List (String × Job) :=
  (k, v) :: m.filter (fun p => p.1 ≠ k)

/-- Map delete `delete(m, k)`. -/
def mapDel (m : List (String × Job)) (k : String) : List (String × Job) :=
  m.filter (fun p => p.1 ≠ k)

/-! ## The manager -/

/-- `CronManager`: scheduler state, the job map, and the executor
table. -/
structure CronManager where
  cron : CronSched
  jobs : List (String × Job)
  executors : String → Option JobExecutor

/-- `NewCronManager()`: empty registry with the default executors. -/
def newCronManager : CronManager :=
  { cron := { entries := [], nextID := 1 }, jobs := [], executors := defaultExecutors }

/-- The errors the manager returns, classified as in the spec taxonomy:
`unknownJobType`/`validationFailed` are ValidationErrors,
`scheduleFailed` is the ScheduleError from `AddFunc`, `jobNotFound` is
the NotFoundError, `emptySchedule` is `UpdateJob`'s basic schedule
check. -/
inductive CMError where
  | unknownJobType (t : String)
  | validationFailed (msg : String)
  | scheduleFailed
  | jobNotFound (id : String)
  | emptySchedule
deriving DecidableEq, Repr

/-- Lines 283-289 of `AddJob`: the human-readable description of the
schedule, falling back to the raw expression when the descriptor
fails. Only `scheduleDesc` changes. -/
def describeSchedule (env : CronEnv) (job : Job) : Job :=
  match env.describe job.schedule with
  | some d => { job with scheduleDesc := d }
  | none => { job with scheduleDesc := job.schedule }

/-- `CronManager.AddJob` (part_003 lines 269-308): executor lookup,
config validation, schedule description (falling back to the raw
expression), then — only if enabled — `AddFunc` registration, handle
and first `NextRun` recording; finally the map insert. On any error
the manager state is unchanged. -/
def addJob (env : CronEnv) (cm : CronManager) (now : Int) (job : Job) :
    CronManager × Option CMError :=
  match cm.executors job.type with
  | none => (cm, some (CMError.unknownJobType job.type))
  | some ex =>
    match ex.validate job.config with
    | Except.error msg => (cm, some (CMError.validationFailed msg))
    | Except.ok _ =>
      let job1 := describeSchedule env job
      if job1.enabled then
        match cronAddFunc env cm.cron job1.schedule job1.id now with
        | Except.error _ => (cm, some CMError.scheduleFailed)
        | Except.ok (c2, eid) =>
          let job2 := { job1 with cronEntryID := some eid,
                                  nextRun := some (cronEntryNext c2 eid) }
          ({ cm with cron := c2, jobs := mapSet cm.jobs job2.id job2 }, none)
      else
        ({ cm with jobs := mapSet cm.jobs job1.id job1 }, none)

/-- `CronManager.RemoveJob` (lines 358-373): not-found check, trigger
removal when a handle is held, then map eviction. -/
def removeJob (cm : CronManager) (jobID : String) : CronManager × Option CMError :=
  match mapGet cm.jobs jobID with
  | none => (cm, some (CMError.jobNotFound jobID))
  | some job =>
    let c2 := match job.cronEntryID with
      | some eid => cronRemove cm.cron eid
      | none => cm.cron
    ({ cm with cron := c2, jobs := mapDel cm.jobs jobID }, none)

/-- `CronManager.UpdateJob` (lines 375-403): validates the new
definition's type, config and non-empty schedule before removing,
then `RemoveJob` followed by `AddJob` with the id forced. A failure
inside the final `AddJob` leaves the state produced by `RemoveJob`. -/
def updateJob (env : CronEnv) (cm : CronManager) (now : Int) (jobID : String)
    (updatedJob : Job) : CronManager × Option CMError :=
  match cm.executors updatedJob.type with
  | none => (cm, some (CMError.unknownJobType updatedJob.type))
  | some ex =>
    match ex.validate updatedJob.config with
    | Except.error msg => (cm, some (CMError.validationFailed msg))
    | Except.ok _ =>
      if updatedJob.schedule = "" then (cm, some CMError.emptySchedule)
      else
        match removeJob cm jobID with
        | (_, some e) => (cm, some e)
        | (cm2, none) => addJob env cm2 now { updatedJob with id := jobID }

/-- `CronManager.GetJob` (lines 405-414). -/
def getJob (cm : CronManager) (jobID : String) : Except CMError Job :=
  match mapGet cm.jobs jobID with
  | none => Except.error (CMError.jobNotFound jobID)
  | some j => Except.ok j

/-- What a trigger fire did: job vanished before the fire, disabled
skip, a panic that unwinds out of the callback, or a completed run
carrying `Execute`'s error if any. -/
inductive ExecTrace where
  | missing
  | skippedDisabled
  | execPanicked
  | ran (errMsg : Option String)
deriving DecidableEq, Repr

/-- The post-execution update of `executeJob` (lines 339-355): re-fetch
the job (no-op when it vanished), set `LastRun` to the completion time,
and when a scheduler handle is held recompute `NextRun` from the
scheduler entry. -/
def finishExecution (cm : CronManager) (jobID : String) (now : Int) : CronManager :=
  match mapGet cm.jobs jobID with
  | none => cm
  | some job =>
    let job1 := { job with lastRun := some now }
    let job2 := match job1.cronEntryID with
      | some eid => { job1 with nextRun := some (cronEntryNext cm.cron eid) }
      | none => job1
    { cm with jobs := mapSet cm.jobs jobID job2 }

/-- `CronManager.executeJob` (lines 310-356): snapshot under the read
lock, skip when missing or disabled, dispatch to the executor (a
failed type assertion panics and the update never runs), then the
post-execution update; an `Execute` error is logged only. -/
def executeJob (cm : CronManager) (jobID : String) (now : Int) :
    CronManager × ExecTrace :=
  match mapGet cm.jobs jobID with
  | none => (cm, ExecTrace.missing)
  | some job =>
    if !job.enabled then (cm, ExecTrace.skippedDisabled)
    else
      let outcome := match cm.executors job.type with
        | some ex => ex.execute job.config
        | none => ExecOutcome.panicked
      match outcome with
      | ExecOutcome.panicked => (cm, ExecTrace.execPanicked)
      | ExecOutcome.failed msg => (finishExecution cm jobID now, ExecTrace.ran (some msg))
      | ExecOutcome.ok => (finishExecution cm jobID now, ExecTrace.ran none)

/-- The `GetAllJobs` comparator (lines 427-441): `LastRun` descending,
nil `LastRun` after any non-nil one, both-nil ordered by name. -/
def jobLess (a b : Job) : Bool :=
  match a.lastRun, b.lastRun with
  | none, none => decide (a.name < b.name)
  | none, some _ => false
  | some _, none => true
  | some x, some y => decide (y < x)

/-- The sort order induced by the comparator (`sort.Slice` guarantees
the output is sorted with respect to this). -/
def jobLE (a b : Job) : Prop :=
  jobLess b a = false

instance : DecidableRel jobLE := fun a b => by
  unfold jobLE; infer_instance

/-- `CronManager.GetAllJobs` (lines 416-443): collect the map's values
and sort them with the comparator. Go's `sort.Slice` is an unspecified
comparison sort over a randomized iteration order; insertion sort over
the model's iteration order is one admissible refinement. -/
def getAllJobs (cm : CronManager) : List Job :=
  List.insertionSort jobLE (cm.jobs.map Prod.snd)

/-! ## `Stop` (lines 252-267), as its sequence of effects -/

/-- The externally visible steps of `CronManager.Stop`. -/
inductive StopStep where
  | saveAllStep
  | cronStopStep
  | syncCancelStep
  | syncJoinStep
deriving DecidableEq, Repr

/-- The order in which `Stop()` performs its steps: one synchronous
`SaveAllJobsToDB`, then `cron.Stop()`, then — when a background sync
loop is running — cancel it and wait for it to exit. -/
def stopSequence (syncRunning : Bool) : List StopStep :=
  [StopStep.saveAllStep, StopStep.cronStopStep] ++
    (if syncRunning then [StopStep.syncCancelStep, StopStep.syncJoinStep] else [])

instance : IsTotal Job jobLE where
  total := by
    intro a b
    unfold jobLE jobLess
    rcases ha : a.lastRun with _ | x <;> rcases hb : b.lastRun with _ | y <;> simp
    · exact le_total a.name.data b.name.data
    · omega

instance : IsTrans Job jobLE where
  trans := by
    intro a b c hab hbc
    unfold jobLE jobLess at *
    rcases ha : a.lastRun with _ | x <;> rcases hb : b.lastRun with _ | y <;>
      rcases hc : c.lastRun with _ | z <;> simp_all
    · exact le_trans hab hbc
    · omega

/-! ## Persistence (`cronmgr/persistence.go`) -/

/-- `boolToInt`. -/
def boolToInt (b : Bool) : Int :=
  if b then 1 else 0

/-- `intToBool`. -/
def intToBool (i : Int) : Bool :=
  i ≠ 0

/-- One row of the `jobs` table. `configJSON` is the serialized config
(the JSON round trip of a flat map is modelled as the identity on the
key-value list); `lastRun`/`nextRun` are nullable epoch seconds. -/
structure JobRow where
  id : String
  name : String
  type : String
  schedule : String
  scheduleDesc : String
  enabled : Int
  configJSON : Config
  lastRun : Option Int
  nextRun : Option Int
deriving DecidableEq, Repr

/-- The row written for a job by `SaveAllJobsToDB` (lines 83-100). -/
def jobToRow (j : Job) : JobRow :=
  { id := j.id, name := j.name, type := j.type, schedule := j.schedule,
    scheduleDesc := j.scheduleDesc, enabled := boolToInt j.enabled,
    configJSON := j.config, lastRun := j.lastRun, nextRun := j.nextRun }

/-- The SQL `INSERT ... ON CONFLICT(id) DO UPDATE` upsert. -/
def upsertRow (db : List JobRow) (r : JobRow) : List JobRow :=
  if db.any (fun x => x.id = r.id) then
    db.map (fun x => if x.id = r.id then r else x)
  else db ++ [r]

/-- `CronManager.SaveAllJobsToDB` (lines 52-104): one transaction that
upserts every in-memory job. -/
def saveAllJobsToDB (cm : CronManager) (db : List JobRow) : List JobRow :=
  cm.jobs.foldl (fun d p => upsertRow d (jobToRow p.2)) db

/-- The `Job` value built from a scanned row by `LoadJobsFromDB`
(lines 133-157): no scheduler handle; `NextRun` taken from the
persisted column when non-null. -/
def rowToJob (r : JobRow) : Job :=
  { id := r.id, name := r.name, type := r.type, schedule := r.schedule,
    scheduleDesc := r.scheduleDesc, enabled := intToBool r.enabled,
    config := r.configJSON, lastRun := r.lastRun, nextRun := r.nextRun,
    cronEntryID := none }

/-- `CronManager.LoadJobsFromDB` (lines 107-183): every row is turned
into a job and re-admitted through `AddJob`; a row whose `AddJob`
fails is skipped and counted, the rest load normally. Returns the
manager, the loaded count and the error count. -/
def loadJobsFromDB (env : CronEnv) (cm : CronManager) (now : Int) (db : List JobRow) :
    CronManager × Nat × Nat :=
  db.foldl
    (fun acc r =>
      match addJob env acc.1 now (rowToJob r) with
      | (c2, none) => (c2, acc.2.1 + 1, acc.2.2)
      | (_, some _) => (acc.1, acc.2.1, acc.2.2 + 1))
    (cm, 0, 0)

/-! ## Backup (`backup/backup.go`) -/

/-- The two local files `BackupSQLite` touches: the persisted DB file
and the sidecar checksum marker in the same directory (`none` = file
absent). -/
structure BackupFS where
  dbFile : Option String
  markerFile : Option String
deriving DecidableEq, Repr

/-- The remote object store, name to content. -/
structure BlobStore where
  blobs : List (String × String)
deriving DecidableEq, Repr

/-- `store.UploadFile(ctx, name, f)`: overwrite the named blob. -/
def uploadBlob (store : BlobStore) (name content : String) : BlobStore :=
  { blobs := (name, content) :: store.blobs.filter (fun p => p.1 ≠ name) }

/-- `readLocalChecksum` (lines 115-121): file content, or the empty
string when the file cannot be read. -/
def readLocalChecksum (marker : Option String) : String :=
  match marker with
  | some s => s
  | none => ""

/-- What a `BackupSQLite` call did. -/
inductive BackupResult where
  | openFailed
  | uploadFailed (msg : String)
  | skipped
  | uploaded
deriving DecidableEq, Repr

/-- `backup.BackupSQLite` (lines 20-53): digest the local file,
compare against the sidecar marker (missing marker reads as `""`),
skip with no error when equal, otherwise upload the full file and then
overwrite the marker with the new digest. `md5hex` is the content
digest; `uploadFail` is the Storage capability's response (`some` =
upload error, which leaves the marker untouched). -/
def backupSQLite (md5hex : String → String) (uploadFail : Option String)
    (fs : BackupFS) (store : BlobStore) (blobName : String) :
    BackupFS × BlobStore × BackupResult :=
  match fs.dbFile with
  | none => (fs, store, BackupResult.openFailed)
  | some content =>
    let cur := md5hex content
    let last := readLocalChecksum fs.markerFile
    if cur = last then (fs, store, BackupResult.skipped)
    else
      match uploadFail with
      | some msg => (fs, store, BackupResult.uploadFailed msg)
      | none =>
        ({ fs with markerFile := some cur }, uploadBlob store blobName content,
         BackupResult.uploaded)

/-! ## Invariants and validity predicates -/

/-- Entry `eid` is live in the scheduler. -/
def entryLive (c : CronSched) (eid : Nat) : Bool :=
  c.entries.any (fun e => e.id = eid)

/-- The job currently holds a live scheduler registration. -/
def registeredWithScheduler (cm : CronManager) (j : Job) : Prop :=
  ∃ eid, j.cronEntryID = some eid ∧ entryLive cm.cron eid = true

/-- The claimed invariant: a job's `NextRun` is non-null iff the job is
currently registered with the scheduler. -/
def NextRunInv (cm : CronManager) : Prop :=
  ∀ id j, mapGet cm.jobs id = some j →
    (j.nextRun.isSome = true ↔ registeredWithScheduler cm j)

/-- Every live entry id is below the scheduler's next fresh id. -/
def EntriesBound (cm : CronManager) : Prop :=
  ∀ e ∈ cm.cron.entries, e.id < cm.cron.nextID

/-- Every handle held by a job points at a live entry. -/
def HandlesLive (cm : CronManager) : Prop :=
  ∀ id j eid, mapGet cm.jobs id = some j → j.cronEntryID = some eid →
    entryLive cm.cron eid = true

/-- No two jobs hold the same handle. -/
def HandlesInj (cm : CronManager) : Prop :=
  ∀ id1 j1 id2 j2 eid, mapGet cm.jobs id1 = some j1 → mapGet cm.jobs id2 = some j2 →
    j1.cronEntryID = some eid → j2.cronEntryID = some eid → id1 = id2

/-- A job's `NextRun` is non-null exactly when it holds a handle. -/
def NextRunIffHandle (cm : CronManager) : Prop :=
  ∀ id j, mapGet cm.jobs id = some j → j.nextRun.isSome = j.cronEntryID.isSome

/-- The registry well-formedness that makes `NextRunInv` inductive. -/
def WF (cm : CronManager) : Prop :=
  EntriesBound cm ∧ HandlesLive cm ∧ HandlesInj cm ∧ NextRunIffHandle cm

/-- Every map key is the stored job's id. -/
def KeysMatch (cm : CronManager) : Prop :=
  ∀ p ∈ cm.jobs, p.2.id = p.1

/-- The registry map binds each id at most once. -/
def KeysNodup (cm : CronManager) : Prop :=
  (cm.jobs.map Prod.fst).Nodup

/-- The job would be (re-)admitted by `AddJob` against the default
executor table: known type, valid config, and — when enabled — a
parseable schedule. -/
def ValidJobD (env : CronEnv) (j : Job) : Prop :=
  (∃ ex, defaultExecutors j.type = some ex ∧ ex.validate j.config = Except.ok ()) ∧
  (j.enabled = true → env.parseOk j.schedule = true)

/-- The row would be re-admitted by `AddJob` when loaded: known type,
valid config, and — when its enabled flag is set — a parseable
schedule. -/
def ValidRow (env : CronEnv) (r : JobRow) : Prop :=
  (∃ ex, defaultExecutors r.type = some ex ∧ ex.validate r.configJSON = Except.ok ()) ∧
  (intToBool r.enabled = true → env.parseOk r.schedule = true)

/-- How a job admitted by `LoadJobsFromDB` at instant `loadNow` relates
to its source row on the persisted fields: all scalar fields and the
config agree; `next_run` survives for a disabled row and is recomputed
by the scheduler for an enabled one. -/
def MatchesRow (env : CronEnv) (loadNow : Int) (r : JobRow) (j : Job) : Prop :=
  j.id = r.id ∧ j.name = r.name ∧ j.type = r.type ∧ j.schedule = r.schedule ∧
  j.enabled = intToBool r.enabled ∧ j.config = r.configJSON ∧ j.lastRun = r.lastRun ∧
  (intToBool r.enabled = false → j.nextRun = r.nextRun) ∧
  (intToBool r.enabled = true → j.nextRun = some (env.nextTime r.schedule loadNow))

/-! ## Concrete fixtures used by witnesses and counterexamples -/

/-- A concrete cron environment: exactly the six-field expression
`0 * * * * *` parses, firing 60 seconds after the reference instant. -/
def testEnv : CronEnv :=
  { parseOk := fun s => s = "0 * * * * *",
    nextTime := fun _ now => now + 60,
    describe := fun _ => none }

/-- A valid enabled custom job. -/
def jobOK : Job :=
  { id := "j1", name := "n1", type := "custom", schedule := "0 * * * * *",
    scheduleDesc := "", enabled := true,
    config := [("command", JVal.str "c")],
    lastRun := none, nextRun := none, cronEntryID := none }

/-- The registry after admitting `jobOK` at instant 100. -/
def cmWithJob : CronManager :=
  (addJob testEnv newCronManager 100 jobOK).1

/-- The stored form of `jobOK` inside `cmWithJob`: description fell
back to the raw expression, first fire at 160, handle 1. -/
def jobOKStored : Job :=
  { jobOK with scheduleDesc := "0 * * * * *", nextRun := some 160,
               cronEntryID := some 1 }

/-- A new definition for `jobOK` whose config is valid but whose
non-empty schedule does not parse. -/
def jobBadSched : Job :=
  { jobOK with schedule := "not-a-cron", config := [("command", JVal.str "x")] }

/-- A disabled job with an unparseable schedule. -/
def jobBadDisabled : Job :=
  { jobBadSched with id := "jd", enabled := false }

/-- A persisted row of a disabled job carrying a non-null `next_run`. -/
def rowDisabled : JobRow :=
  { id := "jd", name := "nd", type := "custom", schedule := "whatever",
    scheduleDesc := "", enabled := 0, configJSON := [("command", JVal.str "c")],
    lastRun := none, nextRun := some 5 }

/-- A persisted disabled row named `a`, `last_run` 10. -/
def rowTieA : JobRow :=
  { id := "a1", name := "a", type := "custom", schedule := "x", scheduleDesc := "",
    enabled := 0, configJSON := [("command", JVal.str "c")], lastRun := some 10,
    nextRun := none }

/-- A persisted disabled row named `b`, same `last_run` 10. -/
def rowTieB : JobRow :=
  { rowTieA with id := "b1", name := "b" }

/-- The registry loaded from the two tied rows. -/
def cmTied : CronManager :=
  (loadJobsFromDB testEnv newCronManager 0 [rowTieA, rowTieB]).1

/-- A config whose required key `to` is present but bound to a number,
not a string. -/
def badTypedCfg : Config :=
  [("to", JVal.num 5), ("subject", JVal.str "hi"), ("body", JVal.str "b")]

/-- An enabled email job with `badTypedCfg`. -/
def jobEmailBadTyped : Job :=
  { id := "jb", name := "nb", type := "email", schedule := "0 * * * * *",
    scheduleDesc := "", enabled := true, config := badTypedCfg,
    lastRun := none, nextRun := none, cronEntryID := none }

/-- The registry after admitting `jobEmailBadTyped`. -/
def cmEmailBadTyped : CronManager :=
  (addJob testEnv newCronManager 0 jobEmailBadTyped).1

/-- A concrete injective stand-in for the content digest. -/
def testDigest : String → String :=
  fun s => String.append "h" s

/-- An executor whose `Execute` always returns an error. -/
def failingExecutor : JobExecutor :=
  ⟨fun _ => Except.ok (), fun _ => ExecOutcome.failed "boom"⟩

/-- An executor whose `Execute` always succeeds. -/
def succeedingExecutor : JobExecutor :=
  ⟨fun _ => Except.ok (), fun _ => ExecOutcome.ok⟩

/-- An enabled registered job used for the dispatch-failure witness. -/
def jobFires : Job :=
  { id := "w", name := "w", type := "t", schedule := "s", scheduleDesc := "",
    enabled := true, config := [], lastRun := none, nextRun := some 7,
    cronEntryID := some 3 }

/-- A registry holding `jobFires` whose executor fails. -/
def cmFailing : CronManager :=
  { cron := { entries := [⟨3, "w", "s", 7⟩], nextID := 4 },
    jobs := [("w", jobFires)],
    executors := fun _ => some failingExecutor }

/-- The same registry with a succeeding executor. -/
def cmSucceeding : CronManager :=
  { cmFailing with executors := fun _ => some succeedingExecutor }

/-! ## Helper lemmas -/

@[simp] theorem describeSchedule_id (env : CronEnv) (j : Job) :
    (describeSchedule env j).id = j.id := by
  unfold describeSchedule; cases env.describe j.schedule <;> rfl

@[simp] theorem describeSchedule_name (env : CronEnv) (j : Job) :
    (describeSchedule env j).name = j.name := by
  unfold describeSchedule; cases env.describe j.schedule <;> rfl

@[simp] theorem describeSchedule_type (env : CronEnv) (j : Job) :
    (describeSchedule env j).type = j.type := by
  unfold describeSchedule; cases env.describe j.schedule <;> rfl

@[simp] theorem describeSchedule_schedule (env : CronEnv) (j : Job) :
    (describeSchedule env j).schedule = j.schedule := by
  unfold describeSchedule; cases env.describe j.schedule <;> rfl

@[simp] theorem describeSchedule_enabled (env : CronEnv) (j : Job) :
    (describeSchedule env j).enabled = j.enabled := by
  unfold describeSchedule; cases env.describe j.schedule <;> rfl

@[simp] theorem describeSchedule_config (env : CronEnv) (j : Job) :
    (describeSchedule env j).config = j.config := by
  unfold describeSchedule; cases env.describe j.schedule <;> rfl

@[simp] theorem describeSchedule_lastRun (env : CronEnv) (j : Job) :
    (describeSchedule env j).lastRun = j.lastRun := by
  unfold describeSchedule; cases env.describe j.schedule <;> rfl

@[simp] theorem describeSchedule_nextRun (env : CronEnv) (j : Job) :
    (describeSchedule env j).nextRun = j.nextRun := by
  unfold describeSchedule; cases env.describe j.schedule <;> rfl

@[simp] theorem describeSchedule_cronEntryID (env : CronEnv) (j : Job) :
    (describeSchedule env j).cronEntryID = j.cronEntryID := by
  unfold describeSchedule; cases env.describe j.schedule <;> rfl

theorem mapGet_filter_ne (m : List (String × Job)) (k i : String) :
    mapGet (m.filter (fun p => p.1 ≠ k)) i = if i = k then none else mapGet m i := by
  induction m with
  | nil => simp [mapGet]
  | cons a m ih =>
    obtain ⟨ak, av⟩ := a
    by_cases hak : ak = k
    · subst hak
      rw [show ((ak, av) :: m).filter (fun p => p.1 ≠ ak) =
            m.filter (fun p => p.1 ≠ ak) from by simp [List.filter_cons]]
      rw [ih]
      by_cases hik : i = ak <;> simp [mapGet, hik]
    · rw [show ((ak, av) :: m).filter (fun p => p.1 ≠ k) =
            (ak, av) :: m.filter (fun p => p.1 ≠ k) from by simp [List.filter_cons, hak]]
      by_cases hia : i = ak
      · subst hia
        rw [if_neg hak]
        simp [mapGet]
      · simp only [mapGet, if_neg hia, ih]

theorem mapGet_mapSet (m : List (String × Job)) (k : String) (v : Job) (i : String) :
    mapGet (mapSet m k v) i = if i = k then some v else mapGet m i := by
  unfold mapSet
  by_cases hik : i = k
  · simp [mapGet, hik]
  · rw [show mapGet ((k, v) :: List.filter (fun p => p.1 ≠ k) m) i
        = mapGet (List.filter (fun p => p.1 ≠ k) m) i from by simp [mapGet, hik]]
    rw [mapGet_filter_ne, if_neg hik, if_neg hik]

theorem mapGet_mapDel (m : List (String × Job)) (k i : String) :
    mapGet (mapDel m k) i = if i = k then none else mapGet m i :=
  mapGet_filter_ne m k i

theorem find_append_fresh (l : List CronEntry) (e : CronEntry)
    (h : ∀ x ∈ l, x.id ≠ e.id) :
    (l ++ [e]).find? (fun x => x.id = e.id) = some e := by
  induction l with
  | nil => simp
  | cons a l ih =>
    have ha : a.id ≠ e.id := h a (by simp)
    simp only [List.cons_append, List.find?_cons]
    rw [decide_eq_false ha]
    exact ih (fun x hx => h x (by simp [hx]))

theorem cronEntryNext_append_fresh (c : CronSched) (e : CronEntry) (n : Nat)
    (hfresh : ∀ x ∈ c.entries, x.id ≠ e.id) :
    cronEntryNext { entries := c.entries ++ [e], nextID := n } e.id = e.next := by
  unfold cronEntryNext
  rw [find_append_fresh c.entries e hfresh]

theorem addJob_disabled_eq (env : CronEnv) (cm : CronManager) (now : Int) (job : Job)
    (ex : JobExecutor) (hex : cm.executors job.type = some ex)
    (hval : ex.validate job.config = Except.ok ())
    (hen : job.enabled = false) :
    addJob env cm now job =
      ({ cm with jobs := mapSet cm.jobs job.id (describeSchedule env job) }, none) := by
  simp only [addJob, hex, hval]
  simp [hen]

theorem addJob_enabled_eq (env : CronEnv) (cm : CronManager) (now : Int) (job : Job)
    (ex : JobExecutor) (hex : cm.executors job.type = some ex)
    (hval : ex.validate job.config = Except.ok ())
    (hen : job.enabled = true)
    (hp : env.parseOk job.schedule = true)
    (hfresh : ∀ e ∈ cm.cron.entries, e.id ≠ cm.cron.nextID) :
    addJob env cm now job =
      ({ cron := { entries := cm.cron.entries ++ [freshEntry env cm.cron job now],
                   nextID := cm.cron.nextID + 1 },
         jobs := mapSet cm.jobs job.id
           { describeSchedule env job with
               cronEntryID := some cm.cron.nextID,
               nextRun := some (env.nextTime job.schedule now) },
         executors := cm.executors }, none) := by
  have hnext : cronEntryNext
      { entries := cm.cron.entries ++
          [{ id := cm.cron.nextID, jobID := job.id, schedule := job.schedule,
             next := env.nextTime job.schedule now }],
        nextID := cm.cron.nextID + 1 } cm.cron.nextID
      = env.nextTime job.schedule now := by
    have := cronEntryNext_append_fresh cm.cron (freshEntry env cm.cron job now)
      (cm.cron.nextID + 1) hfresh
    simpa [freshEntry] using this
  simp only [addJob, cronAddFunc, hex, hval]
  simp [hen, hp, freshEntry, hnext]

theorem addJob_schedule_error (env : CronEnv) (cm : CronManager) (now : Int) (job : Job)
    (ex : JobExecutor) (hex : cm.executors job.type = some ex)
    (hval : ex.validate job.config = Except.ok ())
    (hen : job.enabled = true)
    (hp : env.parseOk job.schedule = false) :
    addJob env cm now job = (cm, some CMError.scheduleFailed) := by
  simp only [addJob, cronAddFunc, hex, hval]
  simp [hen, hp]

theorem removeJob_found_eq (cm : CronManager) (jobID : String) (job : Job)
    (hj : mapGet cm.jobs jobID = some job) :
    removeJob cm jobID =
      ({ cm with
          cron := match job.cronEntryID with
            | some eid => cronRemove cm.cron eid
            | none => cm.cron,
          jobs := mapDel cm.jobs jobID }, none) := by
  simp only [removeJob, hj]

theorem removeJob_notFound_eq (cm : CronManager) (jobID : String)
    (hj : mapGet cm.jobs jobID = none) :
    removeJob cm jobID = (cm, some (CMError.jobNotFound jobID)) := by
  simp only [removeJob, hj]

theorem removeJob_found_none_eq (cm : CronManager) (jobID : String) (job : Job)
    (hj : mapGet cm.jobs jobID = some job) (hce : job.cronEntryID = none) :
    removeJob cm jobID = ({ cm with jobs := mapDel cm.jobs jobID }, none) := by
  simp only [removeJob, hj, hce]

theorem removeJob_found_some_eq (cm : CronManager) (jobID : String) (job : Job) (eid : Nat)
    (hj : mapGet cm.jobs jobID = some job) (hce : job.cronEntryID = some eid) :
    removeJob cm jobID =
      ({ cm with cron := cronRemove cm.cron eid, jobs := mapDel cm.jobs jobID }, none) := by
  simp only [removeJob, hj, hce]

theorem finishExecution_found_eq (cm : CronManager) (jobID : String) (job : Job)
    (now : Int) (hj : mapGet cm.jobs jobID = some job) :
    finishExecution cm jobID now =
      { cm with jobs := mapSet cm.jobs jobID
                  (match job.cronEntryID with
                   | some eid =>
                     { job with lastRun := some now,
                                nextRun := some (cronEntryNext cm.cron eid) }
                   | none => { job with lastRun := some now }) } := by
  simp only [finishExecution, hj]

theorem executeJob_state_cases (cm : CronManager) (jobID : String) (now : Int) :
    (executeJob cm jobID now).1 = cm ∨
    (executeJob cm jobID now).1 = finishExecution cm jobID now := by
  unfold executeJob
  cases hj : mapGet cm.jobs jobID with
  | none => exact Or.inl rfl
  | some job =>
    cases hen : job.enabled with
    | false => simp [hen]
    | true =>
      cases hout : (match cm.executors job.type with
        | some ex => ex.execute job.config
        | none => ExecOutcome.panicked) with
      | ok => simp [hen, hout]
      | failed msg => simp [hen, hout]
      | panicked => simp [hen, hout]

theorem entryLive_iff (c : CronSched) (eid : Nat) :
    entryLive c eid = true ↔ ∃ e ∈ c.entries, e.id = eid := by
  simp [entryLive, List.any_eq_true]

theorem wf_nextRunInv (cm : CronManager) (hwf : WF cm) : NextRunInv cm := by
  obtain ⟨_, hL, _, hN⟩ := hwf
  intro id j hj
  constructor
  · intro hsome
    have hhandle : j.cronEntryID.isSome = true := by rw [← hN id j hj]; exact hsome
    rcases hcid : j.cronEntryID with _ | eid
    · rw [hcid] at hhandle; cases hhandle
    · exact ⟨eid, hcid, hL id j eid hj hcid⟩
  · rintro ⟨eid, heid, _⟩
    rw [hN id j hj, heid]
    rfl

theorem wf_addJob (env : CronEnv) (cm : CronManager) (now : Int) (job : Job)
    (hwf : WF cm) (hnr : job.nextRun = none) (hce : job.cronEntryID = none) :
    WF (addJob env cm now job).1 := by
  obtain ⟨hB, hL, hI, hN⟩ := hwf
  rcases hex : cm.executors job.type with _ | ex
  · simp only [addJob, hex]
    exact ⟨hB, hL, hI, hN⟩
  rcases hval : ex.validate job.config with msg | u
  · simp only [addJob, hex, hval]
    exact ⟨hB, hL, hI, hN⟩
  obtain ⟨⟩ := u
  cases hen : job.enabled with
  | false =>
    rw [addJob_disabled_eq env cm now job ex hex hval hen]
    refine ⟨hB, ?_, ?_, ?_⟩
    · intro id j eid hj hje
      rw [mapGet_mapSet] at hj
      by_cases hid : id = job.id
      · rw [if_pos hid] at hj
        injection hj with hj
        rw [← hj] at hje
        simp [hce] at hje
      · rw [if_neg hid] at hj
        exact hL id j eid hj hje
    · intro id1 j1 id2 j2 eid h1 h2 he1 he2
      rw [mapGet_mapSet] at h1 h2
      by_cases hid1 : id1 = job.id <;> by_cases hid2 : id2 = job.id
      · rw [hid1, hid2]
      · rw [if_pos hid1] at h1
        injection h1 with h1
        rw [← h1] at he1
        simp [hce] at he1
      · rw [if_pos hid2] at h2
        injection h2 with h2
        rw [← h2] at he2
        simp [hce] at he2
      · rw [if_neg hid1] at h1
        rw [if_neg hid2] at h2
        exact hI id1 j1 id2 j2 eid h1 h2 he1 he2
    · intro id j hj
      rw [mapGet_mapSet] at hj
      by_cases hid : id = job.id
      · rw [if_pos hid] at hj
        injection hj with hj
        rw [← hj]
        simp [hnr, hce]
      · rw [if_neg hid] at hj
        exact hN id j hj
  | true =>
    cases hp : env.parseOk job.schedule with
    | false =>
      rw [addJob_schedule_error env cm now job ex hex hval hen hp]
      exact ⟨hB, hL, hI, hN⟩
    | true =>
      have hfresh : ∀ e ∈ cm.cron.entries, e.id ≠ cm.cron.nextID := by
        intro e he
        have := hB e he
        omega
      rw [addJob_enabled_eq env cm now job ex hex hval hen hp hfresh]
      refine ⟨?_, ?_, ?_, ?_⟩
      · intro e he
        simp only [List.mem_append, List.mem_singleton] at he
        rcases he with he | he
        · have := hB e he
          simp only
          omega
        · rw [he]
          simp [freshEntry]
      · intro id j eid hj hje
        rw [mapGet_mapSet] at hj
        by_cases hid : id = job.id
        · rw [if_pos hid] at hj
          injection hj with hj
          rw [← hj] at hje
          simp only [] at hje
          injection hje with hje
          rw [entryLive_iff]
          exact ⟨freshEntry env cm.cron job now, by simp, by simp [freshEntry, hje]⟩
        · rw [if_neg hid] at hj
          have hlive := hL id j eid hj hje
          rw [entryLive_iff] at hlive ⊢
          obtain ⟨e, he, heid⟩ := hlive
          exact ⟨e, by simp [he], heid⟩
      · intro id1 j1 id2 j2 eid h1 h2 he1 he2
        rw [mapGet_mapSet] at h1 h2
        by_cases hid1 : id1 = job.id <;> by_cases hid2 : id2 = job.id
        · rw [hid1, hid2]
        · rw [if_pos hid1] at h1
          rw [if_neg hid2] at h2
          injection h1 with h1
          rw [← h1] at he1
          simp only [] at he1
          injection he1 with he1
          have hlive := hL id2 j2 eid h2 he2
          rw [entryLive_iff] at hlive
          obtain ⟨e, he, heid⟩ := hlive
          have := hB e he
          omega
        · rw [if_neg hid1] at h1
          rw [if_pos hid2] at h2
          injection h2 with h2
          rw [← h2] at he2
          simp only [] at he2
          injection he2 with he2
          have hlive := hL id1 j1 eid h1 he1
          rw [entryLive_iff] at hlive
          obtain ⟨e, he, heid⟩ := hlive
          have := hB e he
          omega
        · rw [if_neg hid1] at h1
          rw [if_neg hid2] at h2
          exact hI id1 j1 id2 j2 eid h1 h2 he1 he2
      · intro id j hj
        rw [mapGet_mapSet] at hj
        by_cases hid : id = job.id
        · rw [if_pos hid] at hj
          injection hj with hj
          rw [← hj]
          rfl
        · rw [if_neg hid] at hj
          exact hN id j hj

theorem wf_removeJob (cm : CronManager) (jobID : String) (hwf : WF cm) :
    WF (removeJob cm jobID).1 := by
  obtain ⟨hB, hL, hI, hN⟩ := hwf
  rcases hj : mapGet cm.jobs jobID with _ | job
  · rw [removeJob_notFound_eq cm jobID hj]
    exact ⟨hB, hL, hI, hN⟩
  rcases hcej : job.cronEntryID with _ | eid0
  · rw [removeJob_found_none_eq cm jobID job hj hcej]
    refine ⟨hB, ?_, ?_, ?_⟩
    · intro id j eid hjd hje
      rw [mapGet_mapDel] at hjd
      by_cases hid : id = jobID
      · rw [if_pos hid] at hjd; cases hjd
      · rw [if_neg hid] at hjd
        exact hL id j eid hjd hje
    · intro id1 j1 id2 j2 eid h1 h2 he1 he2
      rw [mapGet_mapDel] at h1 h2
      by_cases hid1 : id1 = jobID
      · rw [if_pos hid1] at h1; cases h1
      · rw [if_neg hid1] at h1
        by_cases hid2 : id2 = jobID
        · rw [if_pos hid2] at h2; cases h2
        · rw [if_neg hid2] at h2
          exact hI id1 j1 id2 j2 eid h1 h2 he1 he2
    · intro id j hjd
      rw [mapGet_mapDel] at hjd
      by_cases hid : id = jobID
      · rw [if_pos hid] at hjd; cases hjd
      · rw [if_neg hid] at hjd
        exact hN id j hjd
  · rw [removeJob_found_some_eq cm jobID job eid0 hj hcej]
    refine ⟨?_, ?_, ?_, ?_⟩
    · intro e he
      simp only [cronRemove, List.mem_filter] at he
      exact hB e he.1
    · intro id j eid hjd hje
      rw [mapGet_mapDel] at hjd
      by_cases hid : id = jobID
      · rw [if_pos hid] at hjd; cases hjd
      · rw [if_neg hid] at hjd
        have hlive := hL id j eid hjd hje
        rw [entryLive_iff] at hlive
        obtain ⟨e, he, heid⟩ := hlive
        have hne : eid ≠ eid0 := by
          intro heq
          exact hid (hI id j jobID job eid hjd hj hje (by rw [heq, hcej]))
        rw [entryLive_iff]
        refine ⟨e, ?_, heid⟩
        simp only [cronRemove, List.mem_filter]
        refine ⟨he, ?_⟩
        simp [heid, hne]
    · intro id1 j1 id2 j2 eid h1 h2 he1 he2
      rw [mapGet_mapDel] at h1 h2
      by_cases hid1 : id1 = jobID
      · rw [if_pos hid1] at h1; cases h1
      · rw [if_neg hid1] at h1
        by_cases hid2 : id2 = jobID
        · rw [if_pos hid2] at h2; cases h2
        · rw [if_neg hid2] at h2
          exact hI id1 j1 id2 j2 eid h1 h2 he1 he2
    · intro id j hjd
      rw [mapGet_mapDel] at hjd
      by_cases hid : id = jobID
      · rw [if_pos hid] at hjd; cases hjd
      · rw [if_neg hid] at hjd
        exact hN id j hjd

theorem wf_finishExecution (cm : CronManager) (jobID : String) (now : Int)
    (hwf : WF cm) : WF (finishExecution cm jobID now) := by
  obtain ⟨hB, hL, hI, hN⟩ := hwf
  rcases hj : mapGet cm.jobs jobID with _ | job
  · unfold finishExecution
    rw [hj]
    exact ⟨hB, hL, hI, hN⟩
  rw [finishExecution_found_eq cm jobID job now hj]
  have hsame : ∀ j2, j2 = (match job.cronEntryID with
      | some eid =>
        { job with lastRun := some now, nextRun := some (cronEntryNext cm.cron eid) }
      | none => { job with lastRun := some now }) →
      j2.cronEntryID = job.cronEntryID ∧
      j2.nextRun.isSome = (match job.cronEntryID with
        | some _ => true
        | none => job.nextRun.isSome) := by
    intro j2 hj2
    cases hcid : job.cronEntryID <;> rw [hj2] <;> simp [hcid]
  refine ⟨hB, ?_, ?_, ?_⟩
  · intro id j eid hjd hje
    rw [mapGet_mapSet] at hjd
    by_cases hid : id = jobID
    · rw [if_pos hid] at hjd
      injection hjd with hjd
      have := (hsame j (hjd.symm)).1
      rw [this] at hje
      exact hL jobID job eid hj hje
    · rw [if_neg hid] at hjd
      exact hL id j eid hjd hje
  · intro id1 j1 id2 j2 eid h1 h2 he1 he2
    rw [mapGet_mapSet] at h1 h2
    by_cases hid1 : id1 = jobID <;> by_cases hid2 : id2 = jobID
    · rw [hid1, hid2]
    · rw [if_pos hid1] at h1
      rw [if_neg hid2] at h2
      injection h1 with h1
      have := (hsame j1 (h1.symm)).1
      rw [this] at he1
      rw [hid1]
      exact hI jobID job id2 j2 eid hj h2 he1 he2
    · rw [if_neg hid1] at h1
      rw [if_pos hid2] at h2
      injection h2 with h2
      have := (hsame j2 (h2.symm)).1
      rw [this] at he2
      rw [hid2]
      exact (hI id1 j1 jobID job eid h1 hj he1 he2).symm ▸ rfl
    · rw [if_neg hid1] at h1
      rw [if_neg hid2] at h2
      exact hI id1 j1 id2 j2 eid h1 h2 he1 he2
  · intro id j hjd
    rw [mapGet_mapSet] at hjd
    by_cases hid : id = jobID
    · rw [if_pos hid] at hjd
      injection hjd with hjd
      obtain ⟨hceq, hnrq⟩ := hsame j (hjd.symm)
      rw [hceq, hnrq]
      cases hcid : job.cronEntryID with
      | none =>
        have h5 := hN jobID job hj
        rw [hcid] at h5
        simp [hcid, h5]
      | some eid => simp [hcid]
    · rw [if_neg hid] at hjd
      exact hN id j hjd

theorem wf_executeJob (cm : CronManager) (jobID : String) (now : Int) (hwf : WF cm) :
    WF (executeJob cm jobID now).1 := by
  rcases executeJob_state_cases cm jobID now with h | h
  · rw [h]; exact hwf
  · rw [h]; exact wf_finishExecution cm jobID now hwf

theorem wf_updateJob (env : CronEnv) (cm : CronManager) (now : Int) (jobID : String)
    (upd : Job) (hwf : WF cm) (hnr : upd.nextRun = none) (hce : upd.cronEntryID = none) :
    WF (updateJob env cm now jobID upd).1 := by
  rcases hex : cm.executors upd.type with _ | ex
  · simp only [updateJob, hex]
    exact hwf
  rcases hval : ex.validate upd.config with msg | u
  · simp only [updateJob, hex, hval]
    exact hwf
  obtain ⟨⟩ := u
  by_cases hsched : upd.schedule = ""
  · simp only [updateJob, hex, hval, if_pos hsched]
    exact hwf
  · simp only [updateJob, hex, hval, if_neg hsched]
    rcases hrem : removeJob cm jobID with ⟨cm2, _ | e⟩
    · have hwf2 : WF cm2 := by
        have := wf_removeJob cm jobID hwf
        rw [hrem] at this
        exact this
      exact wf_addJob env cm2 now { upd with id := jobID } hwf2 (by simp [hnr]) (by simp [hce])
    · exact hwf

/-! ## Claim theorems -/

/-- Claim C1 (code bug): `UpdateJob` is not atomic on error. Against a
registry holding job `j1`, updating with a new definition whose config
validates, whose schedule is non-empty but unparseable, and whose
`Enabled` is true, returns the schedule error — yet the original job
is gone from the registry and its scheduler trigger has been removed,
contradicting the claimed leave-state-untouched error semantics. -/
theorem updateJob_parse_failure_loses_job :
    (mapGet cmWithJob.jobs "j1").isSome = true ∧
    jobBadSched.enabled = true ∧
    jobBadSched.schedule ≠ "" ∧
    testEnv.parseOk jobBadSched.schedule = false ∧
    (updateJob testEnv cmWithJob 200 "j1" jobBadSched).2 = some CMError.scheduleFailed ∧
    mapGet (updateJob testEnv cmWithJob 200 "j1" jobBadSched).1.jobs "j1" = none ∧
    (updateJob testEnv cmWithJob 200 "j1" jobBadSched).1.cron.entries = [] := by
  decide

/-- Claim C2 counterexample: in the actual `Stop()` sequence the final
`SaveAll` is the FIRST step, strictly before the scheduler stop and
before the background loop is cancelled and joined — not after them as
claimed. -/
theorem stop_runs_saveAll_first_cex :
    (stopSequence true).indexOf StopStep.saveAllStep = 0 ∧
    (stopSequence true).indexOf StopStep.cronStopStep = 1 ∧
    (stopSequence true).indexOf StopStep.syncCancelStep = 2 ∧
    (stopSequence true).indexOf StopStep.syncJoinStep = 3 := by
  decide

/-- Claim C2 (amended): `Stop()` performs exactly one synchronous
`SaveAll`, as its first step, then stops the scheduler, then — when a
background sync loop is running — cancels it and joins it, in that
order; with no loop running the cancel/join steps are absent. -/
theorem stop_sequence_order :
    (stopSequence true).count StopStep.saveAllStep = 1 ∧
    (stopSequence true).indexOf StopStep.saveAllStep <
      (stopSequence true).indexOf StopStep.cronStopStep ∧
    (stopSequence true).indexOf StopStep.cronStopStep <
      (stopSequence true).indexOf StopStep.syncCancelStep ∧
    (stopSequence true).indexOf StopStep.syncCancelStep <
      (stopSequence true).indexOf StopStep.syncJoinStep ∧
    (stopSequence false).count StopStep.saveAllStep = 1 ∧
    StopStep.syncCancelStep ∉ stopSequence false ∧
    StopStep.syncJoinStep ∉ stopSequence false := by
  decide

/-- Claim C3 counterexample: a disabled job whose cron expression does
not parse is accepted by `AddJob` with no error, and the job IS
inserted into the registry — refuting `fails with a ScheduleError
regardless of whether job.Enabled is true or false`. -/
theorem addJob_disabled_unparseable_cex :
    testEnv.parseOk jobBadDisabled.schedule = false ∧
    jobBadDisabled.enabled = false ∧
    (addJob testEnv newCronManager 0 jobBadDisabled).2 = none ∧
    (mapGet (addJob testEnv newCronManager 0 jobBadDisabled).1.jobs "jd").isSome = true := by
  decide

/-- Claim C3 (amended): for a job with a known type and valid config
whose cron expression cannot be parsed, `Add` fails with the
ScheduleError and leaves the registry unchanged only when the job is
enabled; a disabled job never has its schedule parsed and is inserted
into the registry. -/
theorem addJob_unparseable_schedule (env : CronEnv) (cm : CronManager) (now : Int)
    (job : Job) (ex : JobExecutor)
    (hex : cm.executors job.type = some ex)
    (hval : ex.validate job.config = Except.ok ())
    (hp : env.parseOk job.schedule = false) :
    (job.enabled = true →
      addJob env cm now job = (cm, some CMError.scheduleFailed)) ∧
    (job.enabled = false →
      (addJob env cm now job).2 = none ∧
      mapGet (addJob env cm now job).1.jobs job.id =
        some (describeSchedule env job)) := by
  constructor
  · intro hen
    exact addJob_schedule_error env cm now job ex hex hval hen hp
  · intro hen
    rw [addJob_disabled_eq env cm now job ex hex hval hen]
    simp [mapGet_mapSet]

/-- Witness for `addJob_unparseable_schedule` at a concrete disabled
job with an unparseable expression. -/
theorem addJob_unparseable_schedule_witness :
    (addJob testEnv newCronManager 0 jobBadDisabled).2 = none ∧
    mapGet (addJob testEnv newCronManager 0 jobBadDisabled).1.jobs jobBadDisabled.id =
      some (describeSchedule testEnv jobBadDisabled) :=
  (addJob_unparseable_schedule testEnv newCronManager 0 jobBadDisabled
    customJobExecutor rfl rfl rfl).2 rfl

/-- Claim C9: `Validate` only checks presence of required config keys,
never value types, while `Execute` performs unguarded string type
assertions. A config binding the required key `to` to a number passes
`EmailJobExecutor.Validate`, is accepted by both `AddJob` and
`UpdateJob`, and the dispatch-time `Execute` panics instead of
returning an error. The other executors assert unchecked too. -/
theorem validate_presence_only_execute_panics :
    emailValidate badTypedCfg = Except.ok () ∧
    (addJob testEnv newCronManager 0 jobEmailBadTyped).2 = none ∧
    (updateJob testEnv cmEmailBadTyped 0 "jb" jobEmailBadTyped).2 = none ∧
    emailExecute badTypedCfg = ExecOutcome.panicked ∧
    (executeJob cmEmailBadTyped "jb" 5).2 = ExecTrace.execPanicked ∧
    syncValidate [("source", JVal.num 1), ("destination", JVal.str "d")] = Except.ok () ∧
    syncExecute [("source", JVal.num 1), ("destination", JVal.str "d")] = ExecOutcome.panicked ∧
    backupValidate [("path", JVal.boolean true), ("destination", JVal.str "d")] = Except.ok () ∧
    backupExecute [("path", JVal.boolean true), ("destination", JVal.str "d")] = ExecOutcome.panicked ∧
    customValidate [("command", JVal.num 7)] = Except.ok () ∧
    customExecute [("command", JVal.num 7)] = ExecOutcome.panicked :=
  ⟨rfl, rfl, rfl, rfl, rfl, rfl, rfl, rfl, rfl, rfl, rfl⟩

/-- Claim C10: `AddJob` with an id already present does not fail: the
map entry is overwritten with the newly admitted job, every previously
live scheduler entry survives (the old trigger is never removed), and
the number of live triggers whose callback targets this job id grows
by one — so after a duplicate-id add of an enabled job at least two
triggers fire for the same job. -/
theorem addJob_duplicate_id_leaks_trigger (env : CronEnv) (cm : CronManager) (now : Int)
    (job old : Job) (ex : JobExecutor)
    (_hold : mapGet cm.jobs job.id = some old)
    (hex : cm.executors job.type = some ex)
    (hval : ex.validate job.config = Except.ok ())
    (hen : job.enabled = true)
    (hp : env.parseOk job.schedule = true)
    (hfresh : ∀ e ∈ cm.cron.entries, e.id ≠ cm.cron.nextID) :
    (addJob env cm now job).2 = none ∧
    mapGet (addJob env cm now job).1.jobs job.id =
      some { describeSchedule env job with
               cronEntryID := some cm.cron.nextID,
               nextRun := some (env.nextTime job.schedule now) } ∧
    (∀ e ∈ cm.cron.entries, e ∈ (addJob env cm now job).1.cron.entries) ∧
    triggersFor (addJob env cm now job).1.cron job.id =
      triggersFor cm.cron job.id + 1 := by
  rw [addJob_enabled_eq env cm now job ex hex hval hen hp hfresh]
  refine ⟨rfl, ?_, ?_, ?_⟩
  · simp [mapGet_mapSet]
  · intro e he
    simp [he]
  · simp [triggersFor, freshEntry, List.filter_append]

theorem wf_empty : WF newCronManager := by
  refine ⟨?_, ?_, ?_, ?_⟩
  · intro e he
    cases he
  · intro id j eid hj
    cases hj
  · intro id1 j1 id2 j2 eid h1 h2
    cases h1
  · intro id j hj
    cases hj

/-- Claim C4 counterexample: `LoadJobsFromDB` on a fresh manager with
one row of a disabled job whose persisted `next_run` is non-null
produces a registry violating the claimed invariant: the loaded job
has a non-null `NextRun` yet holds no scheduler registration (and the
scheduler has no entries at all). -/
theorem nextRun_inv_broken_by_load_cex :
    ¬ NextRunInv (loadJobsFromDB testEnv newCronManager 0 [rowDisabled]).1 := by
  intro h
  have hj : mapGet (loadJobsFromDB testEnv newCronManager 0 [rowDisabled]).1.jobs "jd" =
      some { id := "jd", name := "nd", type := "custom", schedule := "whatever",
             scheduleDesc := "whatever", enabled := false,
             config := [("command", JVal.str "c")], lastRun := none,
             nextRun := some 5, cronEntryID := none } := by decide
  have hiff := h "jd" _ hj
  have hreg := hiff.mp rfl
  obtain ⟨eid, heid, _⟩ := hreg
  simp at heid

/-- Claim C4 (amended): the invariant `NextRun` non-null iff currently
registered with the scheduler follows from the registry
well-formedness `WF`, and `WF` is preserved by `Add` and `Update` for
any job admitted with no pre-set `NextRun`/handle (as fresh API adds
are), by `Remove`, and by the post-execution update — but NOT by
`LoadJobsFromDB`, which re-admits disabled rows carrying a non-null
persisted `next_run` unchanged (see the counterexample). -/
theorem nextRunInv_preserved (env : CronEnv) (cm : CronManager) (now : Int)
    (job upd : Job) (jobID : String) (hwf : WF cm)
    (hjn : job.nextRun = none) (hjc : job.cronEntryID = none)
    (hun : upd.nextRun = none) (huc : upd.cronEntryID = none) :
    NextRunInv cm ∧
    WF (addJob env cm now job).1 ∧
    NextRunInv (addJob env cm now job).1 ∧
    WF (removeJob cm jobID).1 ∧
    NextRunInv (removeJob cm jobID).1 ∧
    WF (executeJob cm jobID now).1 ∧
    NextRunInv (executeJob cm jobID now).1 ∧
    WF (updateJob env cm now jobID upd).1 ∧
    NextRunInv (updateJob env cm now jobID upd).1 := by
  have ha := wf_addJob env cm now job hwf hjn hjc
  have hr := wf_removeJob cm jobID hwf
  have he := wf_executeJob cm jobID now hwf
  have hu := wf_updateJob env cm now jobID upd hwf hun huc
  exact ⟨wf_nextRunInv cm hwf, ha, wf_nextRunInv _ ha, hr, wf_nextRunInv _ hr,
         he, wf_nextRunInv _ he, hu, wf_nextRunInv _ hu⟩

/-- Witness for `nextRunInv_preserved`: the empty registry and the
pristine job `jobOK`. -/
theorem nextRunInv_preserved_witness :
    NextRunInv newCronManager ∧
    WF (addJob testEnv newCronManager 100 jobOK).1 ∧
    NextRunInv (addJob testEnv newCronManager 100 jobOK).1 ∧
    WF (removeJob newCronManager "j1").1 ∧
    NextRunInv (removeJob newCronManager "j1").1 ∧
    WF (executeJob newCronManager "j1" 100).1 ∧
    NextRunInv (executeJob newCronManager "j1" 100).1 ∧
    WF (updateJob testEnv newCronManager 100 "j1" jobOK).1 ∧
    NextRunInv (updateJob testEnv newCronManager 100 "j1" jobOK).1 :=
  nextRunInv_preserved testEnv newCronManager 100 jobOK jobOK "j1" wf_empty
    rfl rfl rfl rfl

/-- Claim C5 counterexample: a reachable registry (loaded from two
rows with equal non-nil `last_run` 10, names `a` and `b`) on which
`GetAllJobs` returns the names in DESCENDING order `b, a` — the
equal-non-nil-`LastRun` tie is not broken by name ascending. -/
theorem getAllJobs_equal_lastRun_tie_cex :
    (getAllJobs cmTied).map Job.lastRun = [some 10, some 10] ∧
    (getAllJobs cmTied).map Job.name = ["b", "a"] ∧
    (getAllJobs cmTied).map Job.name ≠ ["a", "b"] := by
  decide

/-- Claim C5 (amended): `GetAllJobs` returns a permutation of the
registry sorted by the comparator order `jobLE`: `LastRun` descending,
any job with nil `LastRun` after every job with one, and both-nil ties
by name ascending; two jobs with EQUAL non-nil `LastRun` are mutually
unordered (`jobLE` holds both ways), so that tie is left in iteration
order rather than broken by name. -/
theorem getAllJobs_sorted (cm : CronManager) :
    (getAllJobs cm).Sorted jobLE ∧
    (getAllJobs cm).Perm (cm.jobs.map Prod.snd) ∧
    (∀ a b : Job, jobLE a b ↔
      (match a.lastRun, b.lastRun with
       | some x, some y => y ≤ x
       | some _, none => True
       | none, some _ => False
       | none, none => a.name ≤ b.name)) := by
  refine ⟨List.sorted_insertionSort jobLE _, List.perm_insertionSort jobLE _, ?_⟩
  intro a b
  unfold jobLE jobLess
  rcases ha : a.lastRun with _ | x <;> rcases hb : b.lastRun with _ | y <;> simp

/-- Claim C7: `BackupSQLite` is checksum-gated. With the local file
readable: when the file's digest equals the marker content, nothing is
uploaded, no error is returned and all state is unchanged; when it
differs (a missing marker reads as the empty string), the file is
uploaded to the named blob and the marker is then overwritten with the
new digest. Consequently, with no marker the first call uploads, an
immediate second call on unchanged content skips, and a call after a
content change uploads and updates the marker. -/
theorem backup_checksum_gated (md5hex : String → String) (fs : BackupFS)
    (store : BlobStore) (blobName : String) (c0 c1 : String)
    (hfile : fs.dbFile = some c0) :
    (readLocalChecksum fs.markerFile = md5hex c0 →
      backupSQLite md5hex none fs store blobName = (fs, store, BackupResult.skipped)) ∧
    (readLocalChecksum fs.markerFile ≠ md5hex c0 →
      backupSQLite md5hex none fs store blobName =
        ({ fs with markerFile := some (md5hex c0) }, uploadBlob store blobName c0,
         BackupResult.uploaded)) ∧
    (fs.markerFile = none → md5hex c0 ≠ "" → md5hex c1 ≠ md5hex c0 →
      (backupSQLite md5hex none fs store blobName).2.2 = BackupResult.uploaded ∧
      (backupSQLite md5hex none fs store blobName).1.markerFile = some (md5hex c0) ∧
      (backupSQLite md5hex none (backupSQLite md5hex none fs store blobName).1
         (backupSQLite md5hex none fs store blobName).2.1 blobName)
        = ((backupSQLite md5hex none fs store blobName).1,
           (backupSQLite md5hex none fs store blobName).2.1, BackupResult.skipped) ∧
      (backupSQLite md5hex none
         { (backupSQLite md5hex none fs store blobName).1 with dbFile := some c1 }
         (backupSQLite md5hex none fs store blobName).2.1 blobName).2.2
        = BackupResult.uploaded ∧
      (backupSQLite md5hex none
         { (backupSQLite md5hex none fs store blobName).1 with dbFile := some c1 }
         (backupSQLite md5hex none fs store blobName).2.1 blobName).1.markerFile
        = some (md5hex c1)) := by
  refine ⟨?_, ?_, ?_⟩
  · intro hm
    simp only [backupSQLite, hfile]
    simp [hm]
  · intro hm
    simp only [backupSQLite, hfile]
    simp [Ne.symm hm]
  · intro hmark hne hch
    have hstep1 : backupSQLite md5hex none fs store blobName =
        ({ fs with markerFile := some (md5hex c0) }, uploadBlob store blobName c0,
         BackupResult.uploaded) := by
      simp only [backupSQLite, hfile, hmark]
      simp [readLocalChecksum, hne]
    rw [hstep1]
    refine ⟨rfl, rfl, ?_, ?_, ?_⟩
    · simp [backupSQLite, hfile, readLocalChecksum]
    · simp [backupSQLite, readLocalChecksum, hch]
    · simp [backupSQLite, readLocalChecksum, hch]

/-- Witness for `backup_checksum_gated` with a concrete digest and
files: content `x` first uploads, unchanged skips, content `y`
re-uploads. -/
theorem backup_checksum_gated_witness :
    (readLocalChecksum (BackupFS.mk (some "x") none).markerFile = testDigest "x" →
      backupSQLite testDigest none (BackupFS.mk (some "x") none) (BlobStore.mk []) "b" =
        (BackupFS.mk (some "x") none, BlobStore.mk [], BackupResult.skipped)) ∧
    (readLocalChecksum (BackupFS.mk (some "x") none).markerFile ≠ testDigest "x" →
      backupSQLite testDigest none (BackupFS.mk (some "x") none) (BlobStore.mk []) "b" =
        ({ BackupFS.mk (some "x") none with markerFile := some (testDigest "x") },
         uploadBlob (BlobStore.mk []) "b" "x", BackupResult.uploaded)) ∧
    ((BackupFS.mk (some "x") none).markerFile = none → testDigest "x" ≠ "" →
      testDigest "y" ≠ testDigest "x" →
      (backupSQLite testDigest none (BackupFS.mk (some "x") none) (BlobStore.mk []) "b").2.2
        = BackupResult.uploaded ∧
      (backupSQLite testDigest none (BackupFS.mk (some "x") none) (BlobStore.mk []) "b").1.markerFile
        = some (testDigest "x") ∧
      (backupSQLite testDigest none
         (backupSQLite testDigest none (BackupFS.mk (some "x") none) (BlobStore.mk []) "b").1
         (backupSQLite testDigest none (BackupFS.mk (some "x") none) (BlobStore.mk []) "b").2.1 "b")
        = ((backupSQLite testDigest none (BackupFS.mk (some "x") none) (BlobStore.mk []) "b").1,
           (backupSQLite testDigest none (BackupFS.mk (some "x") none) (BlobStore.mk []) "b").2.1,
           BackupResult.skipped) ∧
      (backupSQLite testDigest none
         { (backupSQLite testDigest none (BackupFS.mk (some "x") none) (BlobStore.mk []) "b").1
             with dbFile := some "y" }
         (backupSQLite testDigest none (BackupFS.mk (some "x") none) (BlobStore.mk []) "b").2.1 "b").2.2
        = BackupResult.uploaded ∧
      (backupSQLite testDigest none
         { (backupSQLite testDigest none (BackupFS.mk (some "x") none) (BlobStore.mk []) "b").1
             with dbFile := some "y" }
         (backupSQLite testDigest none (BackupFS.mk (some "x") none) (BlobStore.mk []) "b").2.1 "b").1.markerFile
        = some (testDigest "y")) :=
  backup_checksum_gated testDigest (BackupFS.mk (some "x") none) (BlobStore.mk []) "b"
    "x" "y" rfl

/-- Dependence of the post-execution update on the registry and
scheduler components only. -/
theorem finishExecution_congr (cm1 cm2 : CronManager) (jobID : String) (now : Int)
    (hjobs : cm1.jobs = cm2.jobs) (hcron : cm1.cron = cm2.cron) :
    (finishExecution cm1 jobID now).jobs = (finishExecution cm2 jobID now).jobs ∧
    (finishExecution cm1 jobID now).cron = (finishExecution cm2 jobID now).cron := by
  unfold finishExecution
  rw [hjobs, hcron]
  cases mapGet cm2.jobs jobID <;> simp [hjobs, hcron]

/-- Claim C8: a trigger fire whose `Execute` returns an error leaves
the job's state exactly as a successful fire does: given two managers
with identical registry and scheduler state whose executors differ
only in that one fails with an error and the other succeeds on this
job's config, the fire produces identical registry and scheduler
state in both; the job stays present with `Enabled` unchanged,
`LastRun` set to the completion time, and `NextRun` recomputed from
the scheduler entry exactly when a handle is held. -/
theorem executeJob_failure_frame (cm1 cm2 : CronManager) (jobID : String) (now : Int)
    (job : Job) (msg : String) (ex1 ex2 : JobExecutor)
    (hjobs : cm1.jobs = cm2.jobs) (hcron : cm1.cron = cm2.cron)
    (hj : mapGet cm1.jobs jobID = some job) (hen : job.enabled = true)
    (hex1 : cm1.executors job.type = some ex1)
    (hfail : ex1.execute job.config = ExecOutcome.failed msg)
    (hex2 : cm2.executors job.type = some ex2)
    (hok : ex2.execute job.config = ExecOutcome.ok) :
    (executeJob cm1 jobID now).2 = ExecTrace.ran (some msg) ∧
    (executeJob cm2 jobID now).2 = ExecTrace.ran none ∧
    (executeJob cm1 jobID now).1.jobs = (executeJob cm2 jobID now).1.jobs ∧
    (executeJob cm1 jobID now).1.cron = (executeJob cm2 jobID now).1.cron ∧
    ∃ j2, mapGet (executeJob cm1 jobID now).1.jobs jobID = some j2 ∧
      j2.enabled = job.enabled ∧ j2.name = job.name ∧ j2.type = job.type ∧
      j2.config = job.config ∧ j2.lastRun = some now ∧
      j2.cronEntryID = job.cronEntryID ∧
      j2.nextRun = (match job.cronEntryID with
        | some eid => some (cronEntryNext cm1.cron eid)
        | none => job.nextRun) := by
  have hj2 : mapGet cm2.jobs jobID = some job := hjobs ▸ hj
  have h1 : executeJob cm1 jobID now =
      (finishExecution cm1 jobID now, ExecTrace.ran (some msg)) := by
    simp only [executeJob, hj, hen, hex1, hfail]
    simp
  have h2 : executeJob cm2 jobID now =
      (finishExecution cm2 jobID now, ExecTrace.ran none) := by
    simp only [executeJob, hj2, hen, hex2, hok]
    simp
  have hfc := finishExecution_congr cm1 cm2 jobID now hjobs hcron
  rw [h1, h2]
  refine ⟨rfl, rfl, hfc.1, hfc.2, ?_⟩
  cases hce : job.cronEntryID with
  | none =>
    refine ⟨{ job with lastRun := some now }, ?_, rfl, rfl, rfl, rfl, rfl, ?_, ?_⟩
    · simp [finishExecution, hj, hce, mapGet_mapSet]
    · exact hce
    · simp [hce]
  | some eid =>
    refine ⟨{ job with lastRun := some now, nextRun := some (cronEntryNext cm1.cron eid) },
      ?_, rfl, rfl, rfl, rfl, rfl, ?_, ?_⟩
    · simp [finishExecution, hj, hce, mapGet_mapSet]
    · exact hce
    · simp [hce]

/-- Witness for `executeJob_failure_frame`: the concrete registries
`cmFailing` and `cmSucceeding`, identical except for the executor
outcome. -/
theorem executeJob_failure_frame_witness :
    (executeJob cmFailing "w" 50).2 = ExecTrace.ran (some "boom") ∧
    (executeJob cmSucceeding "w" 50).2 = ExecTrace.ran none ∧
    (executeJob cmFailing "w" 50).1.jobs = (executeJob cmSucceeding "w" 50).1.jobs ∧
    (executeJob cmFailing "w" 50).1.cron = (executeJob cmSucceeding "w" 50).1.cron ∧
    ∃ j2, mapGet (executeJob cmFailing "w" 50).1.jobs "w" = some j2 ∧
      j2.enabled = jobFires.enabled ∧ j2.name = jobFires.name ∧ j2.type = jobFires.type ∧
      j2.config = jobFires.config ∧ j2.lastRun = some 50 ∧
      j2.cronEntryID = jobFires.cronEntryID ∧
      j2.nextRun = (match jobFires.cronEntryID with
        | some eid => some (cronEntryNext cmFailing.cron eid)
        | none => jobFires.nextRun) :=
  executeJob_failure_frame cmFailing cmSucceeding "w" 50 jobFires "boom"
    failingExecutor succeedingExecutor rfl rfl (by decide) rfl rfl rfl rfl rfl

/-- Witness for `addJob_duplicate_id_leaks_trigger`: re-adding `jobOK`
over the registry that already holds it under the same id. -/
theorem addJob_duplicate_id_leaks_trigger_witness :
    (addJob testEnv cmWithJob 300 jobOK).2 = none ∧
    mapGet (addJob testEnv cmWithJob 300 jobOK).1.jobs jobOK.id =
      some { describeSchedule testEnv jobOK with
               cronEntryID := some cmWithJob.cron.nextID,
               nextRun := some (testEnv.nextTime jobOK.schedule 300) } ∧
    (∀ e ∈ cmWithJob.cron.entries, e ∈ (addJob testEnv cmWithJob 300 jobOK).1.cron.entries) ∧
    triggersFor (addJob testEnv cmWithJob 300 jobOK).1.cron jobOK.id =
      triggersFor cmWithJob.cron jobOK.id + 1 :=
  addJob_duplicate_id_leaks_trigger testEnv cmWithJob 300 jobOK jobOKStored
    customJobExecutor (by decide) rfl rfl rfl rfl (by decide)

theorem intToBool_boolToInt (b : Bool) : intToBool (boolToInt b) = b := by
  cases b <;> decide

theorem upsertRow_fresh (db : List JobRow) (r : JobRow)
    (h : ∀ x ∈ db, x.id ≠ r.id) : upsertRow db r = db ++ [r] := by
  unfold upsertRow
  rw [if_neg]
  simp only [List.any_eq_true, decide_eq_true_eq, not_exists]
  intro x hx
  exact h x hx.1 hx.2

theorem saveAll_fresh_general (l : List (String × Job)) :
    ∀ db : List JobRow,
      (∀ p ∈ l, ∀ x ∈ db, x.id ≠ p.2.id) →
      (l.map (fun p => p.2.id)).Nodup →
      l.foldl (fun d p => upsertRow d (jobToRow p.2)) db =
        db ++ l.map (fun p => jobToRow p.2) := by
  induction l with
  | nil => intro db _ _; simp
  | cons a l ih =>
    intro db hdisj hnodup
    simp only [List.foldl_cons, List.map_cons]
    have hfr : ∀ x ∈ db, x.id ≠ (jobToRow a.2).id := by
      intro x hx
      simpa [jobToRow] using hdisj a (by simp) x hx
    rw [upsertRow_fresh db (jobToRow a.2) hfr]
    rw [ih (db ++ [jobToRow a.2]) ?_ ?_]
    · simp
    · intro p hp x hx
      rcases List.mem_append.mp hx with hx | hx
      · exact hdisj p (by simp [hp]) x hx
      · rw [List.mem_singleton.mp hx]
        simp only [jobToRow]
        intro heq
        have : a.2.id ∈ l.map (fun p => p.2.id) := by
          rw [heq]
          exact List.mem_map.mpr ⟨p, hp, rfl⟩
        simp only [List.map_cons, List.nodup_cons] at hnodup
        exact hnodup.1 this
    · simp only [List.map_cons, List.nodup_cons] at hnodup
      exact hnodup.2

theorem saveAllJobsToDB_fresh (cm : CronManager)
    (hnodup : (cm.jobs.map (fun p => p.2.id)).Nodup) :
    saveAllJobsToDB cm [] = cm.jobs.map (fun p => jobToRow p.2) := by
  have := saveAll_fresh_general cm.jobs [] (by simp) hnodup
  simpa [saveAllJobsToDB] using this

theorem validRow_of_validJob (env : CronEnv) (j : Job) (h : ValidJobD env j) :
    ValidRow env (jobToRow j) := by
  obtain ⟨⟨ex, hex, hv⟩, hp⟩ := h
  refine ⟨⟨ex, ?_, ?_⟩, ?_⟩
  · simpa [jobToRow] using hex
  · simpa [jobToRow] using hv
  · intro he
    rw [show (jobToRow j).enabled = boolToInt j.enabled from rfl,
        intToBool_boolToInt] at he
    simpa [jobToRow] using hp he

theorem find_map_row (l : List (String × Job)) (id : String)
    (hkeys : ∀ p ∈ l, p.2.id = p.1) :
    (l.map (fun p => jobToRow p.2)).find? (fun r => r.id = id) =
      (mapGet l id).map jobToRow := by
  induction l with
  | nil => simp [mapGet]
  | cons a l ih =>
    have ha : a.2.id = a.1 := hkeys a (by simp)
    simp only [List.map_cons, List.find?_cons]
    by_cases hid : id = a.1
    · rw [show (decide ((jobToRow a.2).id = id)) = true from by
        simp [jobToRow, ha, hid]]
      simp [mapGet, hid]
    · rw [show (decide ((jobToRow a.2).id = id)) = false from by
        simp [jobToRow, ha]
        exact fun heq => hid heq.symm]
      rw [ih (fun p hp => hkeys p (by simp [hp]))]
      simp [mapGet, hid]

theorem addJob_valid_spec (env : CronEnv) (cm : CronManager) (now : Int) (r : JobRow)
    (hexec : cm.executors = defaultExecutors)
    (hval : ValidRow env r)
    (hB : ∀ e ∈ cm.cron.entries, e.id < cm.cron.nextID) :
    (addJob env cm now (rowToJob r)).2 = none ∧
    (addJob env cm now (rowToJob r)).1.executors = cm.executors ∧
    (∀ e ∈ (addJob env cm now (rowToJob r)).1.cron.entries,
        e.id < (addJob env cm now (rowToJob r)).1.cron.nextID) ∧
    (∀ id, id ≠ r.id → mapGet (addJob env cm now (rowToJob r)).1.jobs id = mapGet cm.jobs id) ∧
    (∃ j, mapGet (addJob env cm now (rowToJob r)).1.jobs r.id = some j ∧
       MatchesRow env now r j) := by
  obtain ⟨⟨ex, hex0, hval0⟩, hen0⟩ := hval
  have hex : cm.executors (rowToJob r).type = some ex := by
    rw [hexec]
    simpa [rowToJob] using hex0
  have hval1 : ex.validate (rowToJob r).config = Except.ok () := by
    simpa [rowToJob] using hval0
  cases hrE : intToBool r.enabled with
  | false =>
    have henb : (rowToJob r).enabled = false := by simpa [rowToJob] using hrE
    rw [addJob_disabled_eq env cm now (rowToJob r) ex hex hval1 henb]
    refine ⟨rfl, rfl, hB, ?_, ?_⟩
    · intro id hid
      have hid2 : ¬ id = (rowToJob r).id := by simpa [rowToJob] using hid
      rw [mapGet_mapSet, if_neg hid2]
    · refine ⟨describeSchedule env (rowToJob r), ?_, ?_⟩
      · have hid2 : r.id = (rowToJob r).id := by simp [rowToJob]
        rw [mapGet_mapSet, if_pos hid2]
      · refine ⟨?_, ?_, ?_, ?_, ?_, ?_, ?_, ?_, ?_⟩ <;>
          simp [rowToJob, hrE]
  | true =>
    have henb : (rowToJob r).enabled = true := by simpa [rowToJob] using hrE
    have hp : env.parseOk (rowToJob r).schedule = true := by
      simpa [rowToJob] using hen0 hrE
    have hfresh : ∀ e ∈ cm.cron.entries, e.id ≠ cm.cron.nextID := by
      intro e he
      have := hB e he
      omega
    rw [addJob_enabled_eq env cm now (rowToJob r) ex hex hval1 henb hp hfresh]
    refine ⟨rfl, rfl, ?_, ?_, ?_⟩
    · intro e he
      simp only [List.mem_append, List.mem_singleton] at he
      rcases he with he | he
      · have := hB e he
        simp only
        omega
      · rw [he]
        simp [freshEntry]
    · intro id hid
      have hid2 : ¬ id = (rowToJob r).id := by simpa [rowToJob] using hid
      rw [mapGet_mapSet, if_neg hid2]
    · refine ⟨{ describeSchedule env (rowToJob r) with
                  cronEntryID := some cm.cron.nextID,
                  nextRun := some (env.nextTime (rowToJob r).schedule now) }, ?_, ?_⟩
      · have hid2 : r.id = (rowToJob r).id := by simp [rowToJob]
        rw [mapGet_mapSet, if_pos hid2]
      · refine ⟨?_, ?_, ?_, ?_, ?_, ?_, ?_, ?_, ?_⟩ <;>
          simp [rowToJob, hrE]

theorem loadFold_state (env : CronEnv) (now : Int) (db : List JobRow) :
    ∀ (cm : CronManager) (a b : Nat),
      (db.foldl
        (fun acc r =>
          match addJob env acc.1 now (rowToJob r) with
          | (c2, none) => (c2, acc.2.1 + 1, acc.2.2)
          | (_, some _) => (acc.1, acc.2.1, acc.2.2 + 1))
        (cm, a, b)).1 =
      (loadJobsFromDB env cm now db).1 := by
  induction db with
  | nil => intro cm a b; rfl
  | cons r rows ih =>
    intro cm a b
    simp only [loadJobsFromDB, List.foldl_cons]
    rcases haj : addJob env cm now (rowToJob r) with ⟨c2, _ | e⟩
    · simp only [haj]
      rw [ih c2 (a + 1) b]
      rw [ih c2 1 0]
    · simp only [haj]
      rw [ih cm a (b + 1)]
      rw [ih cm 0 1]

theorem loadJobsFromDB_cons (env : CronEnv) (now : Int) (cm : CronManager)
    (r : JobRow) (rows : List JobRow) (cm2 : CronManager)
    (haj : addJob env cm now (rowToJob r) = (cm2, none)) :
    (loadJobsFromDB env cm now (r :: rows)).1 = (loadJobsFromDB env cm2 now rows).1 := by
  simp only [loadJobsFromDB, List.foldl_cons, haj]
  exact loadFold_state env now rows cm2 1 0

theorem loadFold_spec (env : CronEnv) (now : Int) (rows : List JobRow) :
    ∀ (cm0 : CronManager),
      cm0.executors = defaultExecutors →
      (∀ r ∈ rows, ValidRow env r) →
      ((rows.map JobRow.id).Nodup) →
      (∀ e ∈ cm0.cron.entries, e.id < cm0.cron.nextID) →
      (loadJobsFromDB env cm0 now rows).1.executors = defaultExecutors ∧
      (∀ e ∈ (loadJobsFromDB env cm0 now rows).1.cron.entries,
         e.id < (loadJobsFromDB env cm0 now rows).1.cron.nextID) ∧
      (∀ id, (rows.find? (fun r => r.id = id)) = none →
         mapGet (loadJobsFromDB env cm0 now rows).1.jobs id = mapGet cm0.jobs id) ∧
      (∀ id r, (rows.find? (fun r => r.id = id)) = some r →
         ∃ j, mapGet (loadJobsFromDB env cm0 now rows).1.jobs id = some j ∧
           MatchesRow env now r j) := by
  induction rows with
  | nil =>
    intro cm0 hexec _ _ hB
    refine ⟨hexec, hB, ?_, ?_⟩
    · intro id _
      rfl
    · intro id r hfind
      cases hfind
  | cons r rows ih =>
    intro cm0 hexec hvalid hnodup hB
    obtain ⟨haj2, hajex, hajB, hajfr, j1, hj1, hm1⟩ :=
      addJob_valid_spec env cm0 now r hexec (hvalid r (by simp)) hB
    rcases haj : addJob env cm0 now (rowToJob r) with ⟨cm2, err⟩
    rw [haj] at haj2 hajex hajB hajfr hj1
    cases err with
    | some e => cases haj2
    | none =>
    have hload := loadJobsFromDB_cons env now cm0 r rows cm2 haj
    have hndup : (rows.map JobRow.id).Nodup := by
      simp only [List.map_cons, List.nodup_cons] at hnodup
      exact hnodup.2
    have hnotin : r.id ∉ rows.map JobRow.id := by
      simp only [List.map_cons, List.nodup_cons] at hnodup
      exact hnodup.1
    obtain ⟨ih1, ih2, ih3, ih4⟩ := ih cm2 (by rw [hajex, hexec]) (fun x hx => hvalid x (by simp [hx]))
      hndup hajB
    rw [hload]
    refine ⟨ih1, ih2, ?_, ?_⟩
    · intro id hfind
      simp only [List.find?_cons] at hfind
      rcases hdec : decide (r.id = id) with _ | _
      · rw [hdec] at hfind
        rw [ih3 id hfind, hajfr id ?_]
        intro heq
        rw [heq] at hdec
        simp at hdec
      · rw [hdec] at hfind
        cases hfind
    · intro id r0 hfind
      simp only [List.find?_cons] at hfind
      rcases hdec : decide (r.id = id) with _ | _
      · rw [hdec] at hfind
        exact ih4 id r0 hfind
      · rw [hdec] at hfind
        injection hfind with hfind
        have hrid : r.id = id := of_decide_eq_true hdec
        have hfind2 : rows.find? (fun x => x.id = id) = none := by
          rw [List.find?_eq_none]
          intro x hx
          simp only [decide_eq_true_eq]
          intro hxid
          exact hnotin (by rw [hrid, ← hxid]; exact List.mem_map.mpr ⟨x, hx, rfl⟩)
        refine ⟨j1, ?_, ?_⟩
        · have h9 := hj1
          rw [hrid] at h9
          rw [ih3 id hfind2]
          exact h9
        · rw [← hfind]
          exact hm1

/-- Claim C6 counterexample: the round trip is NOT identical on
`next_run` for an enabled job. `jobOK` admitted at instant 100 has
`NextRun` 160; `SaveAll` persists 160; `LoadAll` into a fresh registry
at instant 200 re-registers the job and stores the freshly computed
next fire time 260, not the persisted 160. -/
theorem roundTrip_enabled_nextRun_cex :
    (mapGet cmWithJob.jobs "j1").map Job.nextRun = some (some 160) ∧
    (saveAllJobsToDB cmWithJob []).map JobRow.nextRun = [some 160] ∧
    (mapGet (loadJobsFromDB testEnv newCronManager 200
        (saveAllJobsToDB cmWithJob [])).1.jobs "j1").map Job.nextRun = some (some 260) ∧
    (mapGet (loadJobsFromDB testEnv newCronManager 200
        (saveAllJobsToDB cmWithJob [])).1.jobs "j1").map Job.nextRun ≠
      (mapGet cmWithJob.jobs "j1").map Job.nextRun := by
  decide

/-- Claim C6 (amended): for a registry with well-formed keys whose
jobs all pass validation, `SaveAll` to a fresh store followed by
`LoadAll` into a fresh registry reproduces the same set of job ids,
and each reloaded job agrees with the original field-by-field on id,
name, type, schedule, enabled, config and last_run; next_run is
reproduced identically for disabled jobs, while for an enabled job it
is recomputed by the scheduler at load time (and so equals the
persisted value only when the two computations coincide). -/
theorem saveAll_loadAll_roundTrip (env : CronEnv) (cm : CronManager) (loadNow : Int)
    (hkeys : KeysMatch cm) (hnodup : KeysNodup cm)
    (hvalid : ∀ p ∈ cm.jobs, ValidJobD env p.2) :
    (∀ id j, mapGet cm.jobs id = some j →
       ∃ j2, mapGet (loadJobsFromDB env newCronManager loadNow
           (saveAllJobsToDB cm [])).1.jobs id = some j2 ∧
         j2.id = j.id ∧ j2.name = j.name ∧ j2.type = j.type ∧
         j2.schedule = j.schedule ∧ j2.enabled = j.enabled ∧
         j2.config = j.config ∧ j2.lastRun = j.lastRun ∧
         (j.enabled = false → j2.nextRun = j.nextRun) ∧
         (j.enabled = true → j2.nextRun = some (env.nextTime j.schedule loadNow))) ∧
    (∀ id, mapGet cm.jobs id = none →
       mapGet (loadJobsFromDB env newCronManager loadNow
         (saveAllJobsToDB cm [])).1.jobs id = none) := by
  have hmapeq : cm.jobs.map (fun p => p.2.id) = cm.jobs.map Prod.fst := by
    apply List.map_congr_left
    intro p hp
    exact hkeys p hp
  have hnodup2 : (cm.jobs.map (fun p => p.2.id)).Nodup := by
    rw [hmapeq]
    exact hnodup
  have hrows : saveAllJobsToDB cm [] = cm.jobs.map (fun p => jobToRow p.2) :=
    saveAllJobsToDB_fresh cm hnodup2
  have hrowsid : ((cm.jobs.map (fun p => jobToRow p.2)).map JobRow.id).Nodup := by
    rw [List.map_map]
    exact hnodup2
  have hvrows : ∀ r ∈ cm.jobs.map (fun p => jobToRow p.2), ValidRow env r := by
    intro r hr
    obtain ⟨p, hp, hpr⟩ := List.mem_map.mp hr
    rw [← hpr]
    exact validRow_of_validJob env p.2 (hvalid p hp)
  obtain ⟨_, _, hnone, hsome⟩ := loadFold_spec env loadNow
    (cm.jobs.map (fun p => jobToRow p.2)) newCronManager rfl hvrows hrowsid
    (by intro e he; cases he)
  rw [hrows]
  constructor
  · intro id j hj
    have hfind : (cm.jobs.map (fun p => jobToRow p.2)).find? (fun r => r.id = id) =
        some (jobToRow j) := by
      rw [find_map_row cm.jobs id hkeys, hj]
      rfl
    obtain ⟨j2, hj2, hm⟩ := hsome id (jobToRow j) hfind
    refine ⟨j2, hj2, ?_, ?_, ?_, ?_, ?_, ?_, ?_, ?_, ?_⟩
    · simpa [jobToRow] using hm.1
    · simpa [jobToRow] using hm.2.1
    · simpa [jobToRow] using hm.2.2.1
    · simpa [jobToRow] using hm.2.2.2.1
    · have := hm.2.2.2.2.1
      rw [show (jobToRow j).enabled = boolToInt j.enabled from rfl,
          intToBool_boolToInt] at this
      exact this
    · simpa [jobToRow] using hm.2.2.2.2.2.1
    · simpa [jobToRow] using hm.2.2.2.2.2.2.1
    · intro he
      have h8 := hm.2.2.2.2.2.2.2.1
      rw [show (jobToRow j).enabled = boolToInt j.enabled from rfl,
          intToBool_boolToInt] at h8
      simpa [jobToRow] using h8 he
    · intro he
      have h9 := hm.2.2.2.2.2.2.2.2
      rw [show (jobToRow j).enabled = boolToInt j.enabled from rfl,
          intToBool_boolToInt] at h9
      simpa [jobToRow] using h9 he
  · intro id hid
    have hfind : (cm.jobs.map (fun p => jobToRow p.2)).find? (fun r => r.id = id) =
        none := by
      rw [find_map_row cm.jobs id hkeys, hid]
      rfl
    rw [hnone id hfind]
    rfl

/-- Witness for `saveAll_loadAll_roundTrip`: the one-job registry
`cmWithJob` saved at 100 and reloaded at 200. -/
theorem saveAll_loadAll_roundTrip_witness :
    (∀ id j, mapGet cmWithJob.jobs id = some j →
       ∃ j2, mapGet (loadJobsFromDB testEnv newCronManager 200
           (saveAllJobsToDB cmWithJob [])).1.jobs id = some j2 ∧
         j2.id = j.id ∧ j2.name = j.name ∧ j2.type = j.type ∧
         j2.schedule = j.schedule ∧ j2.enabled = j.enabled ∧
         j2.config = j.config ∧ j2.lastRun = j.lastRun ∧
         (j.enabled = false → j2.nextRun = j.nextRun) ∧
         (j.enabled = true → j2.nextRun = some (testEnv.nextTime j.schedule 200))) ∧
    (∀ id, mapGet cmWithJob.jobs id = none →
       mapGet (loadJobsFromDB testEnv newCronManager 200
         (saveAllJobsToDB cmWithJob [])).1.jobs id = none) :=
  saveAll_loadAll_roundTrip testEnv cmWithJob 200
    (by
      intro p hp
      rw [show cmWithJob.jobs = [("j1", jobOKStored)] from by decide] at hp
      rw [List.mem_singleton.mp hp]
      rfl)
    (by
      show (cmWithJob.jobs.map Prod.fst).Nodup
      rw [show cmWithJob.jobs = [("j1", jobOKStored)] from by decide]
      decide)
    (by
      intro p hp
      rw [show cmWithJob.jobs = [("j1", jobOKStored)] from by decide] at hp
      rw [List.mem_singleton.mp hp]
      exact ⟨⟨customJobExecutor, rfl, rfl⟩, fun _ => rfl⟩)

end Chronos
